import Mathlib

/-!
Verification of the skeletal-animation decoder specification for the
OpenTomb repository against its source of truth, the format document
`doc/mesh_construction_animation.asc`.

The repository documents the binary layout of mesh trees, animations,
state changes, animation dispatches, animation commands and frames.
The components named in the specification (BitpackedAngleCodec,
MeshTreeBuilder, FrameDecoder, AnimCommandStream, AnimationStateMachine,
PoseEvaluator) are embedded below.  Where the document fixes a bit layout
or an algorithm, the definition follows the document; where only the
specification describes behaviour, the definition is modelled from the
specification and its doc comment says so.

Machine words are modelled as `Nat` (`uint16_t` values) and `Int`
(`int16_t` values); bit masks and shifts from the document are written
as division and remainder by the corresponding powers of two.
-/

namespace OpenTomb

/-- One bone's rotation triple, each axis a 10-bit magnitude on the
documented scale of 90 degrees per 0x100 units. -/
structure Rotation where
  x : Nat
  y : Nat
  z : Nat
  deriving Repr, DecidableEq

/-- The zero rotation. -/
def Rotation.zero : Rotation := ⟨0, 0, 0⟩

/-- Format revision relevant to angle-set decoding: the earliest revision
(TR1) versus the later ones (TR2 and up). -/
inductive Revision where
  | tr1
  | tr2plus
  deriving Repr, DecidableEq

/-- Top two bits (mask 0xC000) of the first word of an angle set:
`w1 / 2^14 % 4`.  Per the document: `0x4000` = X only, `0x8000` = Y only,
`0xC000` = Z only, zero = three-axis. -/
def angleTag (w1 : Nat) : Nat := w1 / 16384 % 4

/-- Single-axis rotation selected by the tag bits: tag 1 rotates about X,
tag 2 about Y, tag 3 about Z, with the given 10-bit magnitude. -/
def singleAxisRotation (tag mag : Nat) : Rotation :=
  if tag = 1 then ⟨mag, 0, 0⟩
  else if tag = 2 then ⟨0, mag, 0⟩
  else ⟨0, 0, mag⟩

/-- Three-axis rotation packed in two words, per the document:
X is the 10 bits of mask 0x3FF0 of word 1 (`w1 / 16 % 1024`), Y is the
low 4 bits of word 1 (mask 0x000F) followed by the top 6 bits of word 2
(mask 0xFC00), Z is the low 10 bits of word 2 (mask 0x03FF). -/
def threeAxisRotation (w1 w2 : Nat) : Rotation :=
  { x := w1 / 16 % 1024
    y := w1 % 16 * 64 + w2 / 1024 % 64
    z := w2 % 1024 }

/-- Decode one angle set from a span of `uint16_t` words in the later
revisions (TR2 and up), returning the rotation and the number of words
consumed: a nonzero tag is a one-word single-axis set whose magnitude is
the low 10 bits (mask 0x03FF, `w1 % 1024`); a zero tag is a two-word
three-axis set.  `none` models a span shorter than the set. -/
def decodeAngleSet : List Nat → Option (Rotation × Nat)
  | [] => none
  | w1 :: rest =>
    if angleTag w1 ≠ 0 then
      some (singleAxisRotation (angleTag w1) (w1 % 1024), 1)
    else
      match rest with
      | [] => none
      | w2 :: _ => some (threeAxisRotation w1 w2, 2)

/-- The angle codec over both revisions.  Per the document, in the
earliest revision every angle set is two words, interpreted like the
two-word three-axis sets of the later revisions except that the word
order is reversed (the swap is applied before decoding). -/
def BitpackedAngleCodec.decode (rev : Revision) (words : List Nat) :
    Option (Rotation × Nat) :=
  match rev with
  | .tr1 =>
    match words with
    | w1 :: w2 :: _ => some (threeAxisRotation w2 w1, 2)
    | _ => none
  | .tr2plus => decodeAngleSet words

/-- Decode `count` consecutive angle sets from a word span. -/
def decodeAngles (rev : Revision) : Nat → List Nat → Option (List Rotation)
  | 0, _ => some []
  | c + 1, words =>
    match BitpackedAngleCodec.decode rev words with
    | none => none
    | some (r, used) =>
      (decodeAngles rev c (words.drop used)).map (r :: ·)

/-- The full angle list of one frame.  In the earliest revision the frame
carries an explicit angle count `numValues`; the document says these
start with the first mesh and meshes without angles get zero angles, so
the remainder up to `meshCount` is zero-filled.  In the later revisions
the count is implicitly `meshCount`. -/
def frameAngles (rev : Revision) (meshCount numValues : Nat)
    (words : List Nat) : Option (List Rotation) :=
  match rev with
  | .tr1 =>
    (decodeAngles .tr1 numValues words).map
      (fun l => l ++ List.replicate (meshCount - numValues) Rotation.zero)
  | .tr2plus => decodeAngles .tr2plus meshCount words

theorem decodeAngles_length (rev : Revision) :
    ∀ (c : Nat) (words : List Nat) (l : List Rotation),
      decodeAngles rev c words = some l → l.length = c := by
  intro c
  induction c with
  | zero => intro words l h; simp [decodeAngles] at h; simp [← h]
  | succ c ih =>
    intro words l h
    simp only [decodeAngles] at h
    cases hdec : BitpackedAngleCodec.decode rev words with
    | none => rw [hdec] at h; simp at h
    | some p =>
      obtain ⟨r, used⟩ := p
      rw [hdec] at h
      dsimp only at h
      cases hrec : decodeAngles rev c (words.drop used) with
      | none => rw [hrec] at h; simp at h
      | some tail =>
        rw [hrec] at h
        simp at h
        rw [← h]
        simp [ih _ _ hrec]

/-- C1, counterexample.  The claim says the X component of a three-axis
set is the low 10 bits of the first word.  On the word span `[16, 0]`
the decoder, following the document (X = mask 0x3FF0 of word 1), yields
X = 1, while the low 10 bits of the first word are 16. -/
theorem C1_counterexample :
    decodeAngleSet [16, 0] = some (⟨1, 0, 0⟩, 2) ∧ (16 : Nat) % 1024 ≠ 1 := by
  constructor
  · rfl
  · decide

/-- C1 as amended: for every angle-set word span in the later
revisions, `decodeAngleSet` inspects the top 2 bits of the first word
`w1` (its `angleTag`); whenever they are nonzero — any first word at
all, with no constraint on its other bits — it decodes a single-axis
rotation (tag 1 = X, 2 = Y, 3 = Z) whose magnitude is exactly the low
10 bits `w1 % 1024`, on the 90-degrees-per-256-units scale, and
consumes exactly 1 word; if they are zero it decodes a three-axis
rotation whose X component is bits 4..13 of the first word (mask
0x3FF0), whose Y component is the low 4 bits of word 1 followed by the
top 6 bits of word 2, and whose Z component is the low 10 bits of
word 2, consuming exactly 2 words. -/
theorem C1_angle_set_decode (w1 x y z : Nat) (rest : List Nat)
    (hx : x < 1024) (hy : y < 1024) (hz : z < 1024) :
    (angleTag w1 = 1 →
        decodeAngleSet (w1 :: rest) = some (⟨w1 % 1024, 0, 0⟩, 1))
      ∧ (angleTag w1 = 2 →
          decodeAngleSet (w1 :: rest) = some (⟨0, w1 % 1024, 0⟩, 1))
      ∧ (angleTag w1 = 3 →
          decodeAngleSet (w1 :: rest) = some (⟨0, 0, w1 % 1024⟩, 1))
      ∧ decodeAngleSet ((x * 16 + y / 64) :: ((y % 64) * 1024 + z) :: rest)
          = some (⟨x, y, z⟩, 2) := by
  refine ⟨?_, ?_, ?_, ?_⟩
  · intro ht
    simp [decodeAngleSet, ht, singleAxisRotation]
  · intro ht
    simp [decodeAngleSet, ht, singleAxisRotation]
  · intro ht
    simp [decodeAngleSet, ht, singleAxisRotation]
  · have ht : angleTag (x * 16 + y / 64) = 0 := by simp [angleTag]; omega
    simp [decodeAngleSet, ht, threeAxisRotation, Rotation.mk.injEq]
    refine ⟨?_, ?_, ?_⟩ <;> omega

/-- C1, witness at w1 = 0x4C05 (tag X with bits 10..13 set: the
magnitude keeps only the low 10 bits, 5) and (x, y, z) = (1, 2, 3). -/
theorem C1_angle_set_decode_witness :
    decodeAngleSet [19461] = some (⟨5, 0, 0⟩, 1)
      ∧ decodeAngleSet [16, 2051] = some (⟨1, 2, 3⟩, 2) :=
  ⟨(C1_angle_set_decode 19461 1 2 3 [] (by decide) (by decide)
      (by decide)).1 (by decide),
   (C1_angle_set_decode 19461 1 2 3 [] (by decide) (by decide)
      (by decide)).2.2.2⟩

/-- C6: in the earliest revision the codec interprets every angle set as
the same two-word three-axis layout as the later revisions with the two
words swapped before decoding (stated against the later-revision decoder
on the swapped span, for spans whose three-axis tag is zero), and every
angle omitted because the frame's encoded angle count `numValues` is
below the mesh count decodes to the zero rotation. -/
theorem C6_tr1_angle_sets :
    (∀ (w1 w2 : Nat) (rest : List Nat), angleTag w2 = 0 →
        BitpackedAngleCodec.decode .tr1 (w1 :: w2 :: rest)
          = BitpackedAngleCodec.decode .tr2plus (w2 :: w1 :: rest))
      ∧ (∀ (meshCount numValues : Nat) (words : List Nat) (l : List Rotation),
          numValues ≤ meshCount →
          frameAngles .tr1 meshCount numValues words = some l →
          ∀ k, numValues ≤ k → k < meshCount → l[k]? = some Rotation.zero) := by
  constructor
  · intro w1 w2 rest h
    simp [BitpackedAngleCodec.decode, decodeAngleSet, h]
  · intro meshCount numValues words l hle hdec k hk1 hk2
    simp only [frameAngles] at hdec
    cases hda : decodeAngles .tr1 numValues words with
    | none => rw [hda] at hdec; simp at hdec
    | some dec =>
      rw [hda] at hdec
      simp at hdec
      have hlen : dec.length = numValues := decodeAngles_length _ _ _ _ hda
      rw [← hdec]
      rw [List.getElem?_append_right (by omega)]
      simp [List.getElem?_replicate]
      omega

/-- C6, witness: the swap equation at the span `[5, 16]` and the
zero-fill at mesh count 2 with one encoded angle. -/
theorem C6_tr1_angle_sets_witness :
    BitpackedAngleCodec.decode .tr1 [5, 16]
        = BitpackedAngleCodec.decode .tr2plus [16, 5]
      ∧ ([⟨0, 0, 16⟩, Rotation.zero] : List Rotation)[1]? = some Rotation.zero := by
  constructor
  · exact C6_tr1_angle_sets.1 5 16 [] (by decide)
  · exact C6_tr1_angle_sets.2 2 1 [16, 0] [⟨0, 0, 16⟩, Rotation.zero]
      (by decide) (by rfl) 1 (by decide) (by decide)

/-- One `MeshTree[]` node (`tr_meshtree_node`): bit 0 of `Flags` means
"take the top mesh off of the mesh stack and use as the parent mesh",
bit 1 means "put the parent mesh on the mesh stack"; the offsets are
the mesh origin's coordinates in the parent mesh's system. -/
structure MeshTreeNode where
  takeFromStack : Bool
  pushToStack : Bool
  offset : Int × Int × Int
  deriving Repr, DecidableEq

inductive BuildError where
  | MalformedHierarchy
  deriving Repr, DecidableEq

/-- One hierarchy step for one node: the document says that when both
flag bits are set, the bit-0 (pop) operation is always done before the
bit-1 (push) operation.  Returns the current mesh's parent and the
updated mesh stack, or `none` on an empty-stack pop. -/
def meshTreeStep (node : MeshTreeNode) (prev : Nat) (stack : List Nat) :
    Option (Nat × List Nat) :=
  let popped : Option (Nat × List Nat) :=
    if node.takeFromStack then
      match stack with
      | [] => none
      | p :: s => some (p, s)
    else some (prev, stack)
  match popped with
  | none => none
  | some (parent, stack1) =>
    some (parent, if node.pushToStack then parent :: stack1 else stack1)

/-- Modelled from the spec: the MeshTreeBuilder build loop (the builder
itself is not among the repository sources; the document only describes
the stack scheme).  `prev` is the previous mesh in sequence (the default
parent), `stack` the mesh stack; the result lists (parent, offset) per
mesh in order. -/
def buildAux : List MeshTreeNode → Nat → List Nat →
    Except BuildError (List (Nat × (Int × Int × Int)))
  | [], _, _ => .ok []
  | node :: rest, prev, stack =>
    match meshTreeStep node prev stack with
    | none => .error .MalformedHierarchy
    | some (parent, stack2) =>
      match buildAux rest (prev + 1) stack2 with
      | .error e => .error e
      | .ok tail => .ok ((parent, node.offset) :: tail)

/-- Modelled from the spec: `MeshTreeBuilder.build`.  Mesh 0 is the
root; entry `k` of the result holds the parent index and parent-relative
offset of mesh `k + 1`.  The current parent starts at mesh 0 and the
mesh stack starts empty. -/
def MeshTreeBuilder.build (nodes : List MeshTreeNode) :
    Except BuildError (List (Nat × (Int × Int × Int))) :=
  buildAux nodes 0 []

/-- Net effect of one node on the mesh-stack height: pop-then-push
leaves it unchanged, a bare pop decrements, a bare push increments. -/
def stackHeightStep (h : Nat) (node : MeshTreeNode) : Nat :=
  if node.takeFromStack then
    (if node.pushToStack then h else h - 1)
  else
    (if node.pushToStack then h + 1 else h)

/-- Mesh-stack height after processing `nodes` from initial height `h`. -/
def stackHeightFrom (h : Nat) (nodes : List MeshTreeNode) : Nat :=
  nodes.foldl stackHeightStep h

/-- Some node pops the mesh stack while it is empty: node `k` has the
take-from-stack flag and the stack height after the first `k` nodes is
zero (heights counted from initial height `h`). -/
def takesFromEmpty (h : Nat) (nodes : List MeshTreeNode) : Prop :=
  ∃ k node, nodes[k]? = some node ∧ node.takeFromStack = true
    ∧ stackHeightFrom h (nodes.take k) = 0

theorem takesFromEmpty_cons (h : Nat) (node : MeshTreeNode)
    (rest : List MeshTreeNode) :
    takesFromEmpty h (node :: rest)
      ↔ (node.takeFromStack = true ∧ h = 0)
        ∨ takesFromEmpty (stackHeightStep h node) rest := by
  constructor
  · rintro ⟨k, n, hget, htake, hh⟩
    cases k with
    | zero =>
      left
      simp at hget
      rw [← hget] at htake
      exact ⟨htake, by simpa [stackHeightFrom] using hh⟩
    | succ k =>
      right
      refine ⟨k, n, by simpa using hget, htake, ?_⟩
      simpa [stackHeightFrom, List.take_succ_cons] using hh
  · rintro (⟨ht, hh⟩ | ⟨k, n, hget, htake, hh⟩)
    · exact ⟨0, node, by simp, ht, by simpa [stackHeightFrom] using hh⟩
    · exact ⟨k + 1, n, by simpa using hget, htake,
        by simpa [stackHeightFrom, List.take_succ_cons] using hh⟩

theorem buildAux_error_iff (nodes : List MeshTreeNode) :
    ∀ (prev : Nat) (stack : List Nat),
      buildAux nodes prev stack = .error .MalformedHierarchy
        ↔ takesFromEmpty stack.length nodes := by
  induction nodes with
  | nil =>
    intro prev stack
    simp only [buildAux]
    constructor
    · intro h; simp at h
    · rintro ⟨k, n, hget, _⟩; simp at hget
  | cons node rest ih =>
    intro prev stack
    rw [takesFromEmpty_cons]
    by_cases ht : node.takeFromStack
    · cases stack with
      | nil =>
        simp [buildAux, meshTreeStep, ht]
      | cons p s =>
        have hstep : meshTreeStep node prev (p :: s)
            = some (p, if node.pushToStack then p :: s else s) := by
          simp [meshTreeStep, ht]
        have hlen : (if node.pushToStack then p :: s else s).length
            = stackHeightStep (p :: s).length node := by
          by_cases hp : node.pushToStack <;> simp [stackHeightStep, ht, hp]
        simp only [buildAux, hstep]
        constructor
        · intro h
          cases hrec : buildAux rest (prev + 1)
              (if node.pushToStack then p :: s else s) with
          | error e =>
            right
            rw [← hlen]
            exact (ih (prev + 1) _).mp (by rw [hrec] at h; cases h; exact hrec)
          | ok tail => rw [hrec] at h; simp at h
        · rintro (⟨_, hlen0⟩ | hrec)
          · simp at hlen0
          · rw [← hlen] at hrec
            have := (ih (prev + 1)
                (if node.pushToStack then p :: s else s)).mpr hrec
            rw [this]
    · have hstep : meshTreeStep node prev stack
          = some (prev, if node.pushToStack then prev :: stack else stack) := by
        simp [meshTreeStep, ht]
      have hlen : (if node.pushToStack then prev :: stack else stack).length
          = stackHeightStep stack.length node := by
        by_cases hp : node.pushToStack <;> simp [stackHeightStep, ht, hp]
      simp only [buildAux, hstep]
      constructor
      · intro h
        cases hrec : buildAux rest (prev + 1)
            (if node.pushToStack then prev :: stack else stack) with
        | error e =>
          right
          rw [← hlen]
          exact (ih (prev + 1) _).mp (by rw [hrec] at h; cases h; exact hrec)
        | ok tail => rw [hrec] at h; simp at h
      · rintro (⟨ht2, _⟩ | hrec)
        · rw [ht2] at ht; simp at ht
        · rw [← hlen] at hrec
          have := (ih (prev + 1)
              (if node.pushToStack then prev :: stack else stack)).mpr hrec
          rw [this]

theorem meshTreeStep_bound (node : MeshTreeNode) (prev : Nat)
    (stack : List Nat) (hstack : ∀ p ∈ stack, p ≤ prev)
    (parent : Nat) (stack2 : List Nat)
    (hstep : meshTreeStep node prev stack = some (parent, stack2)) :
    parent ≤ prev ∧ ∀ p ∈ stack2, p ≤ prev := by
  by_cases ht : node.takeFromStack
  · cases stack with
    | nil => simp [meshTreeStep, ht] at hstep
    | cons p s =>
      have hps : p ≤ prev := hstack p (by simp)
      have hs : ∀ q ∈ s, q ≤ prev := fun q hq => hstack q (by simp [hq])
      simp [meshTreeStep, ht] at hstep
      obtain ⟨rfl, rfl⟩ := hstep
      constructor
      · exact hps
      · by_cases hp : node.pushToStack <;> intro q hq <;> simp [hp] at hq
        · rcases hq with hq | hq
          · rw [hq]; exact hps
          · exact hs q hq
        · exact hs q hq
  · simp [meshTreeStep, ht] at hstep
    obtain ⟨rfl, rfl⟩ := hstep
    constructor
    · exact le_refl prev
    · by_cases hp : node.pushToStack <;> intro q hq <;> simp [hp] at hq
      · rcases hq with hq | hq
        · omega
        · exact hstack q hq
      · exact hstack q hq

theorem buildAux_ok_parents (nodes : List MeshTreeNode) :
    ∀ (prev : Nat) (stack : List Nat) (l : List (Nat × (Int × Int × Int))),
      (∀ p ∈ stack, p ≤ prev) →
      buildAux nodes prev stack = .ok l →
      ∀ (k : Nat) (pr : Nat × (Int × Int × Int)),
        l[k]? = some pr → pr.1 ≤ prev + k := by
  induction nodes with
  | nil =>
    intro prev stack l _ hb k pr hget
    simp only [buildAux] at hb
    cases hb
    simp at hget
  | cons node rest ih =>
    intro prev stack l hstack hb k pr hget
    simp only [buildAux] at hb
    cases hstep : meshTreeStep node prev stack with
    | none => rw [hstep] at hb; simp at hb
    | some ps =>
      obtain ⟨parent, stack2⟩ := ps
      rw [hstep] at hb
      dsimp only at hb
      cases hrec : buildAux rest (prev + 1) stack2 with
      | error e => rw [hrec] at hb; simp at hb
      | ok tail =>
        rw [hrec] at hb
        cases hb
        obtain ⟨hpar, hstack2⟩ := meshTreeStep_bound node prev stack hstack
          parent stack2 hstep
        cases k with
        | zero =>
          simp at hget
          rw [← hget]
          simpa using hpar
        | succ k =>
          simp only [List.getElem?_cons_succ] at hget
          have := ih (prev + 1)
            stack2 tail (fun p hp => le_trans (hstack2 p hp) (by omega))
            hrec k pr hget
          omega

/-- C2: the MeshTreeBuilder stack algorithm.  (1) With both flags set
the stack is popped first and the same value pushed back, so the stack
is read without being changed and the popped value is the parent;
(2) with only take-from-stack the popped value becomes the parent;
(3) without take-from-stack the parent defaults to the previous mesh in
sequence, and push-to-stack pushes the current parent, not the mesh's
own index; (4) build fails with MalformedHierarchy exactly when a
take-from-stack occurs while the stack is empty; (5) on success every
mesh's parent index is strictly below its own index (entry `k` is mesh
`k + 1`), so the graph is a forest rooted at mesh 0 — hence the failure
condition of (4) is also exactly "empty-stack pop, or not a forest
rooted at mesh 0", the second disjunct being impossible. -/
theorem C2_meshtree_build :
    (∀ (node : MeshTreeNode) (prev p : Nat) (s : List Nat),
        node.takeFromStack = true → node.pushToStack = true →
        meshTreeStep node prev (p :: s) = some (p, p :: s))
      ∧ (∀ (node : MeshTreeNode) (prev p : Nat) (s : List Nat),
          node.takeFromStack = true → node.pushToStack = false →
          meshTreeStep node prev (p :: s) = some (p, s))
      ∧ (∀ (node : MeshTreeNode) (prev : Nat) (stack : List Nat),
          node.takeFromStack = false →
          meshTreeStep node prev stack
            = some (prev, if node.pushToStack then prev :: stack else stack))
      ∧ (∀ nodes : List MeshTreeNode,
          MeshTreeBuilder.build nodes = .error .MalformedHierarchy
            ↔ takesFromEmpty 0 nodes)
      ∧ (∀ (nodes : List MeshTreeNode) (l : List (Nat × (Int × Int × Int))),
          MeshTreeBuilder.build nodes = .ok l →
          ∀ (k : Nat) (pr : Nat × (Int × Int × Int)),
            l[k]? = some pr → pr.1 ≤ k) := by
  refine ⟨?_, ?_, ?_, ?_, ?_⟩
  · intro node prev p s ht hp; simp [meshTreeStep, ht, hp]
  · intro node prev p s ht hp; simp [meshTreeStep, ht, hp]
  · intro node prev stack ht; simp [meshTreeStep, ht]
  · intro nodes
    have := buildAux_error_iff nodes 0 []
    simpa [MeshTreeBuilder.build] using this
  · intro nodes l hb k pr hget
    have := buildAux_ok_parents nodes 0 [] l (by simp) hb k pr hget
    simpa using this

/-- C2, witness: a four-node sequence exercising push, both-flags and
pop, and a failing single-node sequence popping the empty stack. -/
theorem C2_meshtree_build_witness :
    meshTreeStep ⟨true, true, (0, 0, 0)⟩ 7 [4] = some (4, [4])
      ∧ meshTreeStep ⟨true, false, (0, 0, 0)⟩ 7 [4, 2] = some (4, [2])
      ∧ meshTreeStep ⟨false, true, (0, 0, 0)⟩ 7 [4] = some (7, [7, 4])
      ∧ (MeshTreeBuilder.build [⟨true, false, (0, 0, 0)⟩]
            = .error .MalformedHierarchy
          ↔ takesFromEmpty 0 [⟨true, false, (0, 0, 0)⟩]) := by
  refine ⟨?_, ?_, ?_, ?_⟩
  · exact C2_meshtree_build.1 ⟨true, true, (0, 0, 0)⟩ 7 4 [] rfl rfl
  · exact C2_meshtree_build.2.1 ⟨true, false, (0, 0, 0)⟩ 7 4 [2] rfl rfl
  · exact C2_meshtree_build.2.2.1 ⟨false, true, (0, 0, 0)⟩ 7 [4] rfl
  · exact C2_meshtree_build.2.2.2.1 [⟨true, false, (0, 0, 0)⟩]

/-- `tr2_anim_dispatch`: lowest and highest frame using the range, and
the animation and frame to dispatch to. -/
structure AnimDispatch where
  low : Int
  high : Int
  nextAnimation : Int
  nextFrame : Int
  deriving Repr, DecidableEq

/-- `tr2_state_change`: the state to change to and the dispatches to
scan (resolved from the documented offset/count pair). -/
structure StateChange where
  stateId : Nat
  dispatches : List AnimDispatch
  deriving Repr, DecidableEq

/-- `tr_animation` / `tr4_animation`, with the state-change and command
references resolved; `speedLateral`/`accelLateral` exist only in the
extended revision. -/
structure Animation where
  frameOffset : Nat
  frameRate : Nat
  frameSize : Nat
  stateId : Nat
  speed : Int
  accel : Int
  speedLateral : Option Int
  accelLateral : Option Int
  frameStart : Nat
  frameEnd : Nat
  nextAnimation : Nat
  nextFrame : Nat
  stateChanges : List StateChange
  animCommands : List Int
  deriving Repr, DecidableEq

/-- Modelled from the spec: a dispatch matches a frame when the frame
lies in the inclusive range `[low, high]`.  (The document marks the
upper bound as "Highest frame (+1?)"; the specification fixes it as
inclusive.) -/
def dispatchMatches (d : AnimDispatch) (frame : Int) : Bool :=
  decide (d.low ≤ frame) && decide (frame ≤ d.high)

/-- Modelled from the spec: `AnimationStateMachine.selectNext`.  `none`
means the entity stays on its current animation: either the animation
already has the requested state, or no state change carries the
requested state, or no dispatch range of the first matching state
change contains the current frame.  Otherwise the first matching
dispatch of the first matching state change gives the transition
target `(nextAnimation, nextFrame)`. -/
def AnimationStateMachine.selectNext (anim : Animation) (currentFrame : Int)
    (requested : Nat) : Option (Int × Int) :=
  if anim.stateId = requested then none
  else
    match anim.stateChanges.find? (fun sc => sc.stateId == requested) with
    | none => none
    | some sc =>
      match sc.dispatches.find? (fun d => dispatchMatches d currentFrame) with
      | none => none
      | some d => some (d.nextAnimation, d.nextFrame)

/-- The dispatch of claim C3: `{low 0, high 9, nextAnimation 5,
nextFrame 0}`. -/
def c3Dispatch : AnimDispatch := ⟨0, 9, 5, 0⟩

/-- The state change of claim C3: state 2 with the single dispatch. -/
def c3Change : StateChange := ⟨2, [c3Dispatch]⟩

/-- The concrete animation of claim C3: its own state is 1 and its one
state change is `c3Change`. -/
def c3Anim : Animation :=
  { frameOffset := 0, frameRate := 1, frameSize := 10, stateId := 1
    speed := 0, accel := 0, speedLateral := none, accelLateral := none
    frameStart := 0, frameEnd := 20, nextAnimation := 0, nextFrame := 0
    stateChanges := [c3Change]
    animCommands := [] }

/-- C3: on the animation above, `selectNext` at frame 3 with requested
state 2 returns `(5, 0)`, and at frame 15 it leaves the current
animation unchanged (`none`) because no dispatch range contains 15. -/
theorem C3_selectNext_example :
    AnimationStateMachine.selectNext c3Anim 3 2 = some (5, 0)
      ∧ AnimationStateMachine.selectNext c3Anim 15 2 = none := by
  constructor <;> decide

theorem find?_eq_of_first {α : Type} (p : α → Bool) :
    ∀ (l : List α) (k : Nat) (a : α),
      l[k]? = some a → p a = true →
      (∀ j b, j < k → l[j]? = some b → p b = false) →
      l.find? p = some a := by
  intro l
  induction l with
  | nil => intro k a h; simp at h
  | cons x xs ih =>
    intro k a hget hp hfirst
    cases k with
    | zero =>
      simp at hget
      subst hget
      exact List.find?_cons_of_pos _ hp
    | succ k =>
      have hx : p x = false := hfirst 0 x (Nat.succ_pos k) (by simp)
      rw [List.find?_cons_of_neg _ (by simp [hx])]
      exact ih k a (by simpa using hget) hp
        (fun j b hj hb => hfirst (j + 1) b (by omega) (by simpa using hb))

/-- C4: the dispatch bound `high` is inclusive — a dispatch matches a
frame exactly when `low ≤ frame ≤ high`, so a frame equal to `high` is a
match — and on the first matching dispatch of the first matching state
change (all earlier state changes carry a different state id, all
earlier dispatches of that state change miss the frame) the transition
target is `(nextAnimation, nextFrame)`. -/
theorem C4_dispatch_high_inclusive :
    (∀ (d : AnimDispatch) (f : Int),
        dispatchMatches d f = true ↔ d.low ≤ f ∧ f ≤ d.high)
      ∧ (∀ d : AnimDispatch, d.low ≤ d.high →
          dispatchMatches d d.high = true)
      ∧ (∀ (anim : Animation) (f : Int) (req : Nat)
            (i : Nat) (sc : StateChange) (j : Nat) (d : AnimDispatch),
          anim.stateId ≠ req →
          anim.stateChanges[i]? = some sc → sc.stateId = req →
          (∀ i2 sc2, i2 < i → anim.stateChanges[i2]? = some sc2 →
            sc2.stateId ≠ req) →
          sc.dispatches[j]? = some d → dispatchMatches d f = true →
          (∀ j2 d2, j2 < j → sc.dispatches[j2]? = some d2 →
            dispatchMatches d2 f = false) →
          AnimationStateMachine.selectNext anim f req
            = some (d.nextAnimation, d.nextFrame)) := by
  refine ⟨?_, ?_, ?_⟩
  · intro d f
    simp [dispatchMatches]
  · intro d h
    simp [dispatchMatches, h]
  · intro anim f req i sc j d hstate hsc hscid hscfirst hd hdm hdfirst
    have hfind1 : anim.stateChanges.find? (fun sc => sc.stateId == req)
        = some sc := by
      refine find?_eq_of_first _ _ i sc hsc (by simpa using hscid) ?_
      intro j2 b hj2 hb
      simpa using hscfirst j2 b hj2 hb
    have hfind2 : sc.dispatches.find? (fun d => dispatchMatches d f)
        = some d :=
      find?_eq_of_first _ _ j d hd hdm hdfirst
    simp [AnimationStateMachine.selectNext, hstate, hfind1, hfind2]

/-- C4, witness: on the C3 animation, frame 9 equals the dispatch's
`high` bound and still matches, dispatching to `(5, 0)`. -/
theorem C4_dispatch_high_inclusive_witness :
    AnimationStateMachine.selectNext c3Anim 9 2 = some (5, 0) := by
  have h := C4_dispatch_high_inclusive.2.2 c3Anim 9 2 0 c3Change 0 c3Dispatch
    (by decide) (by rfl) (by rfl)
    (fun i2 sc2 h2 _ => absurd h2 (by omega))
    (by rfl) (by decide)
    (fun j2 d2 h2 _ => absurd h2 (by omega))
  simpa [c3Dispatch] using h

/-- One decoded AnimCommand, per the documented type table. -/
inductive AnimCommand where
  | setPosition (dx dy dz : Int)
  | jumpDistance (vSpeed hSpeed : Int)
  | emptyHands
  | kill
  | playSound (frame soundIdPacked : Int)
  | effect (frame effectId : Int)
  deriving Repr, DecidableEq

inductive CommandError where
  | UnknownCommand
  | TruncatedCommandStream
  deriving Repr, DecidableEq

/-- Operand count fixed by the opcode, per the document: 1 Set Position
has 3 arguments, 2 Jump Distance 2, 3 Empty Hands none, 4 Kill none,
5 Play Sound 2, 6 Effect 2; any other opcode is unknown. -/
def operandCount (op : Int) : Option Nat :=
  if op = 1 then some 3
  else if op = 2 then some 2
  else if op = 3 then some 0
  else if op = 4 then some 0
  else if op = 5 then some 2
  else if op = 6 then some 2
  else none

/-- The typed command for an opcode and its operand list. -/
def mkCommand (op : Int) (args : List Int) : AnimCommand :=
  if op = 1 then .setPosition (args.getD 0 0) (args.getD 1 0) (args.getD 2 0)
  else if op = 2 then .jumpDistance (args.getD 0 0) (args.getD 1 0)
  else if op = 3 then .emptyHands
  else if op = 4 then .kill
  else if op = 5 then .playSound (args.getD 0 0) (args.getD 1 0)
  else .effect (args.getD 0 0) (args.getD 1 0)

/-- Modelled from the spec: AnimCommandStream decoding.  The flat i16
array is walked sequentially (the document: AnimCommands must be parsed
sequentially, one by one); each entry in opcode position fixes how many
operands follow; an opcode outside 1..6 aborts the walk with
`UnknownCommand`, producing no command; a stream ending inside a
command's operands aborts with `TruncatedCommandStream`. -/
def decodeAnimCommands : List Int → Except CommandError (List AnimCommand)
  | [] => .ok []
  | op :: rest =>
    match operandCount op with
    | none => .error .UnknownCommand
    | some k =>
      if k ≤ rest.length then
        match decodeAnimCommands (rest.drop k) with
        | .error e => .error e
        | .ok tail => .ok (mkCommand op (rest.take k) :: tail)
      else .error .TruncatedCommandStream
termination_by l => l.length
decreasing_by
  simp [List.length_drop]
  omega

/-- The i16 encoding of one typed command: its opcode then operands. -/
def encodeCommand : AnimCommand → List Int
  | .setPosition dx dy dz => [1, dx, dy, dz]
  | .jumpDistance v hs => [2, v, hs]
  | .emptyHands => [3]
  | .kill => [4]
  | .playSound f s => [5, f, s]
  | .effect f e => [6, f, e]

theorem decodeAnimCommands_append (n : Nat) :
    ∀ (pre t : List Int) (cs : List AnimCommand), pre.length ≤ n →
      decodeAnimCommands pre = .ok cs →
      decodeAnimCommands (pre ++ t)
        = (decodeAnimCommands t).map (cs ++ ·) := by
  induction n with
  | zero =>
    intro pre t cs hlen hdec
    have hnil : pre = [] := List.length_eq_zero.mp (Nat.le_zero.mp hlen)
    subst hnil
    simp only [decodeAnimCommands] at hdec
    injection hdec with h
    subst h
    simp only [List.nil_append]
    cases decodeAnimCommands t <;> simp [Except.map]
  | succ n ih =>
    intro pre t cs hlen hdec
    cases pre with
    | nil =>
      simp only [decodeAnimCommands] at hdec
      injection hdec with h
      subst h
      simp only [List.nil_append]
      cases decodeAnimCommands t <;> simp [Except.map]
    | cons op rest =>
      simp only [decodeAnimCommands] at hdec
      cases hop : operandCount op with
      | none => rw [hop] at hdec; simp at hdec
      | some k =>
        rw [hop] at hdec
        dsimp only at hdec
        by_cases hk : k ≤ rest.length
        · rw [if_pos hk] at hdec
          cases hrec : decodeAnimCommands (rest.drop k) with
          | error e => rw [hrec] at hdec; simp at hdec
          | ok tail =>
            rw [hrec] at hdec
            dsimp only at hdec
            injection hdec with h
            subst h
            simp only [List.cons_append, decodeAnimCommands, hop]
            have hk2 : k ≤ (rest ++ t).length := by
              simp only [List.length_append]; omega
            rw [if_pos hk2]
            rw [List.take_append_of_le_length hk,
              List.drop_append_of_le_length hk]
            have hrecl := ih (rest.drop k) t tail
              (by simp only [List.length_drop]
                  simp only [List.length_cons] at hlen
                  omega) hrec
            rw [hrecl]
            cases decodeAnimCommands t <;> simp [Except.map]
        · rw [if_neg hk] at hdec; simp at hdec

theorem decodeAnimCommands_encode (c : AnimCommand) :
    decodeAnimCommands (encodeCommand c) = .ok [c] := by
  cases c <;>
    simp [encodeCommand, decodeAnimCommands, operandCount, mkCommand]

/-- C5: the command stream is walked sequentially with operand counts
fixed by opcode — 1 Set Position takes 3, 2 Jump Distance 2,
3 Empty Hands 0, 4 Kill 0, 5 Play Sound 2, 6 Effect 2, every opcode
outside 1..6 is unknown; a stream of well-formed packets decodes to
exactly its command list; and a stream whose walk reaches an opcode
outside 1..6 fails with UnknownCommand, so no command after the
offending opcode is produced (the decode of the whole stream is an
error, not a list). -/
theorem C5_command_stream :
    (operandCount 1 = some 3 ∧ operandCount 2 = some 2
      ∧ operandCount 3 = some 0 ∧ operandCount 4 = some 0
      ∧ operandCount 5 = some 2 ∧ operandCount 6 = some 2
      ∧ ∀ op : Int, op < 1 ∨ 6 < op → operandCount op = none)
      ∧ (∀ cmds : List AnimCommand,
          decodeAnimCommands (cmds.map encodeCommand).flatten = .ok cmds)
      ∧ (∀ (pre suf : List Int) (cs : List AnimCommand) (op : Int),
          decodeAnimCommands pre = .ok cs → op < 1 ∨ 6 < op →
          decodeAnimCommands (pre ++ op :: suf)
            = .error .UnknownCommand) := by
  have hunknown : ∀ op : Int, op < 1 ∨ 6 < op → operandCount op = none := by
    intro op hop
    simp only [operandCount]
    rw [if_neg (by omega), if_neg (by omega), if_neg (by omega),
      if_neg (by omega), if_neg (by omega), if_neg (by omega)]
  refine ⟨⟨by rfl, by rfl, by rfl, by rfl, by rfl, by rfl, hunknown⟩, ?_, ?_⟩
  · intro cmds
    induction cmds with
    | nil => simp [decodeAnimCommands]
    | cons c cmds ih =>
      simp only [List.map_cons, List.flatten_cons]
      rw [decodeAnimCommands_append (encodeCommand c).length
        (encodeCommand c) _ [c] (le_refl _) (decodeAnimCommands_encode c)]
      rw [ih]
      simp [Except.map]
  · intro pre suf cs op hpre hop
    rw [decodeAnimCommands_append pre.length pre (op :: suf) cs
      (le_refl _) hpre]
    have hbad : decodeAnimCommands (op :: suf) = .error .UnknownCommand := by
      simp only [decodeAnimCommands, hunknown op hop]
    rw [hbad]
    simp [Except.map]

/-- C5, witness: the stream `[3, 9, 0]` decodes its Empty Hands packet
and then fails on the unknown opcode 9. -/
theorem C5_command_stream_witness :
    decodeAnimCommands [3, 9, 0] = .error .UnknownCommand :=
  C5_command_stream.2.2 [3] [0] [.emptyHands] 9
    (by simp [decodeAnimCommands, operandCount, mkCommand])
    (Or.inr (by norm_num))

/-- Signed interpretation of a 16-bit word. -/
def toI16 (w : Nat) : Int :=
  if w % 65536 < 32768 then ((w % 65536 : Nat) : Int)
  else ((w % 65536 : Nat) : Int) - 65536

/-- One decoded frame (`tr_anim_frame`): bounding box low and high
corners, the root mesh offset, and one angle set per mesh. -/
structure Frame where
  bboxMin : Int × Int × Int
  bboxMax : Int × Int × Int
  rootOffset : Int × Int × Int
  angles : List Rotation
  deriving Repr, DecidableEq

inductive FrameError where
  | TruncatedFrame
  deriving Repr, DecidableEq

/-- Word index of a requested frame's data in the shared Frames[]
buffer, computed only from the requesting animation's own fields:
`frameOffset` is a byte offset (divided by 2 to index 16-bit words),
keyframes sit every `frameRate` frames from `frameStart`, and each
keyframe of this animation occupies `frameSize` words. -/
def frameWordBase (anim : Animation) (f : Nat) : Nat :=
  anim.frameOffset / 2
    + (f - anim.frameStart) / anim.frameRate * anim.frameSize

/-- Decode one frame from its word window: the 9 leading i16 header
fields (bounding box low and high, root offset), then in the earliest
revision the explicit angle count, then the packed angle sets. -/
def decodeFrameWindow (rev : Revision) (meshCount : Nat)
    (window : List Nat) : Except FrameError Frame :=
  match window with
  | b1x :: b1y :: b1z :: b2x :: b2y :: b2z :: ox :: oy :: oz :: rest =>
    let header : Frame → Except FrameError Frame := .ok
    match rev with
    | .tr1 =>
      match rest with
      | [] => .error .TruncatedFrame
      | nv :: rest2 =>
        match frameAngles .tr1 meshCount nv rest2 with
        | none => .error .TruncatedFrame
        | some angles =>
          header ⟨(toI16 b1x, toI16 b1y, toI16 b1z),
                  (toI16 b2x, toI16 b2y, toI16 b2z),
                  (toI16 ox, toI16 oy, toI16 oz), angles⟩
    | .tr2plus =>
      match frameAngles .tr2plus meshCount meshCount rest with
      | none => .error .TruncatedFrame
      | some angles =>
        header ⟨(toI16 b1x, toI16 b1y, toI16 b1z),
                (toI16 b2x, toI16 b2y, toI16 b2z),
                (toI16 ox, toI16 oy, toI16 oz), angles⟩
  | _ => .error .TruncatedFrame

/-- Modelled from the spec: `FrameDecoder.decode`.  The decoder reads
exactly the requesting animation's own window — `frameSize` words
starting at `frameWordBase` — and parses a frame from it; it is driven
by the requesting animation's `frameOffset`, `frameRate`, `frameStart`
and `frameSize` alone and never scans past that window, even when the
window overlaps the next animation's frame range. -/
def FrameDecoder.decode (buffer : List Nat) (rev : Revision)
    (anim : Animation) (meshCount : Nat) (f : Nat) :
    Except FrameError Frame :=
  decodeFrameWindow rev meshCount
    ((buffer.drop (frameWordBase anim f)).take anim.frameSize)

/-- C7: the frame byte extent is computed only from the requesting
animation's own `frameSize`, `frameRate`, `frameStart` and
`frameOffset`: two animation records agreeing on those four fields, and
two buffers agreeing on the `frameSize`-word window starting at the
animation's own base, decode to the same result — in particular the
result never depends on the next animation's declared per-frame size,
even when the window overlaps the next animation's range, and nothing
beyond the window (such as words past `frameEnd`) is ever read. -/
theorem C7_frame_extent (buffer buffer2 : List Nat) (rev : Revision)
    (a1 a2 : Animation) (meshCount f : Nat)
    (hsize : a1.frameSize = a2.frameSize)
    (hrate : a1.frameRate = a2.frameRate)
    (hstart : a1.frameStart = a2.frameStart)
    (hoff : a1.frameOffset = a2.frameOffset)
    (hwin : (buffer.drop (frameWordBase a1 f)).take a1.frameSize
      = (buffer2.drop (frameWordBase a1 f)).take a1.frameSize) :
    FrameDecoder.decode buffer rev a1 meshCount f
      = FrameDecoder.decode buffer2 rev a2 meshCount f := by
  have hbase : frameWordBase a1 f = frameWordBase a2 f := by
    simp [frameWordBase, hrate, hstart, hoff, hsize]
  simp only [FrameDecoder.decode, ← hbase, ← hsize]
  rw [hwin]

/-- C7, witness: two buffers differing only past the 11-word window of
an animation with `frameSize` 11 decode identically. -/
theorem C7_frame_extent_witness :
    FrameDecoder.decode
        [0, 0, 0, 0, 0, 0, 0, 0, 0, 0, 0, 3] .tr2plus
        { c3Anim with frameSize := 11 } 1 0
      = FrameDecoder.decode
        [0, 0, 0, 0, 0, 0, 0, 0, 0, 0, 0, 9] .tr2plus
        { c3Anim with frameSize := 11 } 1 0 :=
  C7_frame_extent [0, 0, 0, 0, 0, 0, 0, 0, 0, 0, 0, 3]
    [0, 0, 0, 0, 0, 0, 0, 0, 0, 0, 0, 9] .tr2plus
    { c3Anim with frameSize := 11 } { c3Anim with frameSize := 11 } 1 0
    rfl rfl rfl rfl (by decide)

/-- Modelled from the spec and document: a frame referenced by absolute
frame index `f` sits within its animation at position
`f - frameStart` (the document: the animation's first-frame index is
subtracted from the desired frame's index). -/
def resolveFrameIndex (anim : Animation) (f : Nat) : Nat :=
  f - anim.frameStart

/-- C10: the frame's position within the animation is `f - frameStart`
(so the animation's own first frame resolves to 0 and `frameStart + k`
to `k`); the decoder depends on the absolute index only through that
difference; and since frame indices restart at 0 for each entity kind,
the same index value addresses different frame data for two kinds whose
frame blocks start at different word offsets. -/
theorem C10_frame_index_resolution :
    (∀ anim : Animation, resolveFrameIndex anim anim.frameStart = 0)
      ∧ (∀ (anim : Animation) (k : Nat),
          resolveFrameIndex anim (anim.frameStart + k) = k)
      ∧ (∀ (buffer : List Nat) (rev : Revision) (anim : Animation)
            (meshCount f1 f2 : Nat),
          resolveFrameIndex anim f1 = resolveFrameIndex anim f2 →
          FrameDecoder.decode buffer rev anim meshCount f1
            = FrameDecoder.decode buffer rev anim meshCount f2)
      ∧ (∀ (a1 a2 : Animation) (f b1 b2 : Nat),
          a1.frameStart = 0 → a2.frameStart = 0 →
          a1.frameRate = a2.frameRate → a1.frameSize = a2.frameSize →
          a1.frameOffset = 2 * b1 → a2.frameOffset = 2 * b2 → b1 ≠ b2 →
          frameWordBase a1 f ≠ frameWordBase a2 f) := by
  refine ⟨?_, ?_, ?_, ?_⟩
  · intro anim; simp [resolveFrameIndex]
  · intro anim k; simp [resolveFrameIndex]
  · intro buffer rev anim meshCount f1 f2 h
    simp only [resolveFrameIndex] at h
    simp only [FrameDecoder.decode, frameWordBase, h]
  · intro a1 a2 f b1 b2 h1 h2 hr hs ho1 ho2 hne
    simp only [frameWordBase, h1, h2, ho1, ho2, hr, hs]
    generalize (f - 0) / a2.frameRate * a2.frameSize = T
    omega

/-- C10, witness: on the C3 animation, indices `frameStart` and
`frameStart + 5` resolve to 0 and 5, and two animations whose frame
blocks start at byte offsets 0 and 2 give different word bases for the
same index 3. -/
theorem C10_frame_index_resolution_witness :
    resolveFrameIndex c3Anim c3Anim.frameStart = 0
      ∧ resolveFrameIndex c3Anim (c3Anim.frameStart + 5) = 5
      ∧ frameWordBase c3Anim 3
          ≠ frameWordBase { c3Anim with frameOffset := 2 } 3 :=
  ⟨C10_frame_index_resolution.1 c3Anim,
   C10_frame_index_resolution.2.1 c3Anim 5,
   C10_frame_index_resolution.2.2.2 c3Anim
     { c3Anim with frameOffset := 2 } 3 0 1
     rfl rfl rfl rfl rfl rfl (by decide)⟩

/-- The frame a per-frame command triggers at: Play Sound and Effect
carry one; the whole-animation commands carry none. -/
def perFrameNumber : AnimCommand → Option Int
  | .playSound f _ => some f
  | .effect f _ => some f
  | _ => none

/-- Modelled from the spec: the per-frame commands one tick emits when
the fractional frame moved from `prev` to `nf`: those whose frame value
was crossed, exclusive of the previous value and inclusive of the new
one. -/
def crossedCommands (cmds : List AnimCommand) (prev nf : ℚ) :
    List AnimCommand :=
  cmds.filter fun c =>
    match perFrameNumber c with
    | some f => decide (prev < (f : ℚ)) && decide ((f : ℚ) ≤ nf)
    | none => false

/-- Modelled from the spec: one PoseEvaluator tick advances the
fractional frame by `deltaTicks / frameRate` and emits the crossed
per-frame commands of the animation's decoded command list. -/
def PoseEvaluator.tickAdvance (anim : Animation) (cmds : List AnimCommand)
    (currentFrame deltaTicks : ℚ) : ℚ × List AnimCommand :=
  let newFrame := currentFrame + deltaTicks / (anim.frameRate : ℚ)
  (newFrame, crossedCommands cmds currentFrame newFrame)

/-- C8: a per-frame command with frame value `f` is emitted by a tick
exactly when `f` lies in the half-open interval (previous currentFrame,
new currentFrame]; consequently a command whose frame one tick crossed
(`prev < f ≤` that tick's new frame) is emitted by that tick and never
emitted again by the following tick, whatever that tick's advance. -/
theorem C8_per_frame_crossing :
    (∀ (anim : Animation) (cmds : List AnimCommand) (c : AnimCommand)
        (f : Int) (prev delta : ℚ),
        perFrameNumber c = some f →
        (c ∈ (PoseEvaluator.tickAdvance anim cmds prev delta).2
          ↔ c ∈ cmds ∧ prev < (f : ℚ)
              ∧ (f : ℚ) ≤ (PoseEvaluator.tickAdvance anim cmds prev delta).1))
      ∧ (∀ (anim : Animation) (cmds : List AnimCommand) (c : AnimCommand)
          (f : Int) (prev d1 d2 : ℚ),
          perFrameNumber c = some f → c ∈ cmds →
          prev < (f : ℚ) →
          (f : ℚ) ≤ (PoseEvaluator.tickAdvance anim cmds prev d1).1 →
          c ∈ (PoseEvaluator.tickAdvance anim cmds prev d1).2
            ∧ c ∉ (PoseEvaluator.tickAdvance anim cmds
                (PoseEvaluator.tickAdvance anim cmds prev d1).1 d2).2) := by
  have hmem : ∀ (cmds : List AnimCommand) (c : AnimCommand) (f : Int)
      (a b : ℚ), perFrameNumber c = some f →
      (c ∈ crossedCommands cmds a b
        ↔ c ∈ cmds ∧ a < (f : ℚ) ∧ (f : ℚ) ≤ b) := by
    intro cmds c f a b hf
    simp [crossedCommands, List.mem_filter, hf]
  constructor
  · intro anim cmds c f prev delta hf
    exact hmem cmds c f prev (prev + delta / (anim.frameRate : ℚ)) hf
  · intro anim cmds c f prev d1 d2 hf hc h1 h2
    constructor
    · exact (hmem cmds c f prev
        (prev + d1 / (anim.frameRate : ℚ)) hf).mpr ⟨hc, h1, h2⟩
    · intro hbad
      have hlt := ((hmem cmds c f
        (prev + d1 / (anim.frameRate : ℚ))
        (prev + d1 / (anim.frameRate : ℚ)
          + d2 / (anim.frameRate : ℚ)) hf).mp hbad).2.1
      exact absurd hlt (not_lt.mpr h2)

/-- C8, witness: a Play Sound at frame 10 with packed id 0x4005 fires
in the tick advancing frame 9 to frame 10 and not in the following
tick. -/
theorem C8_per_frame_crossing_witness :
    AnimCommand.playSound 10 0x4005
        ∈ (PoseEvaluator.tickAdvance c3Anim [.playSound 10 0x4005] 9 1).2
      ∧ AnimCommand.playSound 10 0x4005
          ∉ (PoseEvaluator.tickAdvance c3Anim [.playSound 10 0x4005]
              (PoseEvaluator.tickAdvance c3Anim
                [.playSound 10 0x4005] 9 1).1 5).2 :=
  C8_per_frame_crossing.2 c3Anim [.playSound 10 0x4005]
    (.playSound 10 0x4005) 10 9 1 5 rfl (by simp) (by norm_num)
    (by simp [PoseEvaluator.tickAdvance, c3Anim]; norm_num)

/-- Modelled from the spec: integer-granularity playback advancement
over an animation table.  The state is (animation index, absolute
frame); when the next frame would pass `frameEnd`, the animation's
(nextAnimation, nextFrame) pair is applied. -/
def stepPlayback (anims : List Animation) (st : Nat × Nat) : Nat × Nat :=
  match anims[st.1]? with
  | none => st
  | some anim =>
    if anim.frameEnd < st.2 + 1 then (anim.nextAnimation, anim.nextFrame)
    else (st.1, st.2 + 1)

/-- The pose of a playback state: the decoded frame of the state's
animation at the state's frame index. -/
def poseAt (buffer : List Nat) (rev : Revision) (anims : List Animation)
    (meshCount : Nat) (st : Nat × Nat) :
    Option (Except FrameError Frame) :=
  (anims[st.1]?).map fun anim =>
    FrameDecoder.decode buffer rev anim meshCount st.2

theorem stepPlayback_run_up (anims : List Animation) (i : Nat)
    (anim : Animation) (hanim : anims[i]? = some anim) :
    ∀ (k f : Nat), f + k ≤ anim.frameEnd →
      (stepPlayback anims)^[k] (i, f) = (i, f + k) := by
  intro k
  induction k with
  | zero => intro f _; simp
  | succ k ih =>
    intro f hk
    rw [Function.iterate_succ_apply]
    have hstep : stepPlayback anims (i, f) = (i, f + 1) := by
      simp only [stepPlayback, hanim]
      rw [if_neg (by omega)]
    rw [hstep]
    have := ih (f + 1) (by omega)
    rw [this]
    congr 1
    omega

theorem stepPlayback_periodic (anims : List Animation) (i : Nat)
    (anim : Animation) (hanim : anims[i]? = some anim)
    (hself : anim.nextAnimation = i)
    (hnext : anim.nextFrame = anim.frameStart)
    (hse : anim.frameStart ≤ anim.frameEnd) :
    ∀ f : Nat, anim.frameStart ≤ f → f ≤ anim.frameEnd →
      (stepPlayback anims)^[anim.frameEnd - anim.frameStart + 1] (i, f)
        = (i, f) := by
  intro f hf1 hf2
  have hsplit : anim.frameEnd - anim.frameStart + 1
      = (f - anim.frameStart) + ((anim.frameEnd - f) + 1) := by omega
  rw [hsplit, Function.iterate_add_apply]
  have hwrap : (stepPlayback anims)^[(anim.frameEnd - f) + 1] (i, f)
      = (i, anim.frameStart) := by
    rw [Function.iterate_succ_apply']
    rw [stepPlayback_run_up anims i anim hanim (anim.frameEnd - f) f
      (by omega)]
    have : f + (anim.frameEnd - f) = anim.frameEnd := by omega
    rw [this]
    simp only [stepPlayback, hanim]
    rw [if_pos (by omega), hself, hnext]
  rw [hwrap]
  rw [stepPlayback_run_up anims i anim hanim (f - anim.frameStart)
    anim.frameStart (by omega)]
  congr 1
  omega

/-- C9: for an animation whose `nextAnimation` is itself and whose
`nextFrame` is its own `frameStart`, repeated playback advancement from
the loop start is periodic with period `frameEnd - frameStart + 1`
frames, and so is the resulting pose sequence. -/
theorem C9_self_loop_periodic (buffer : List Nat) (rev : Revision)
    (anims : List Animation) (meshCount : Nat) (i : Nat)
    (anim : Animation) (n : Nat)
    (hanim : anims[i]? = some anim)
    (hself : anim.nextAnimation = i)
    (hnext : anim.nextFrame = anim.frameStart)
    (hse : anim.frameStart ≤ anim.frameEnd) :
    (stepPlayback anims)^[n + (anim.frameEnd - anim.frameStart + 1)]
        (i, anim.frameStart)
      = (stepPlayback anims)^[n] (i, anim.frameStart)
      ∧ poseAt buffer rev anims meshCount
          ((stepPlayback anims)^[n + (anim.frameEnd - anim.frameStart + 1)]
            (i, anim.frameStart))
        = poseAt buffer rev anims meshCount
            ((stepPlayback anims)^[n] (i, anim.frameStart)) := by
  have hper := stepPlayback_periodic anims i anim hanim hself hnext hse
    anim.frameStart (le_refl _) hse
  have hfr : (stepPlayback anims)^[n + (anim.frameEnd - anim.frameStart + 1)]
      (i, anim.frameStart) = (stepPlayback anims)^[n] (i, anim.frameStart) := by
    rw [Function.iterate_add_apply, hper]
  exact ⟨hfr, by rw [hfr]⟩

/-- C9, witness: a three-frame self-loop (frames 0..2 of animation 0)
repeats with period 3 from step 1 to step 4. -/
theorem C9_self_loop_periodic_witness :
    (stepPlayback [{ c3Anim with frameEnd := 2 }])^[1 + 3] (0, 0)
        = (stepPlayback [{ c3Anim with frameEnd := 2 }])^[1] (0, 0)
      ∧ poseAt [] .tr2plus [{ c3Anim with frameEnd := 2 }] 1
          ((stepPlayback [{ c3Anim with frameEnd := 2 }])^[1 + 3] (0, 0))
        = poseAt [] .tr2plus [{ c3Anim with frameEnd := 2 }] 1
            ((stepPlayback [{ c3Anim with frameEnd := 2 }])^[1] (0, 0)) :=
  C9_self_loop_periodic [] .tr2plus [{ c3Anim with frameEnd := 2 }] 1 0
    { c3Anim with frameEnd := 2 } 1 rfl rfl rfl (by decide)

end OpenTomb
